import Mathlib

/-!
Shallow embedding of the codeask agent core: the agent tool-calling loop
(`src/agent.py`), the conversation state manager (`src/conversation_manager.py`)
and the MCP tool registry/dispatch (`src/mcp_client.py`).

Messages are role-tagged with content that is either a plain string or a list
of structured blocks, mirroring the Anthropic message dictionaries used by the
Python code.
-/

inductive Role where
  | user
  | assistant
deriving DecidableEq, Repr

/-- A content block of a message: plain text, a tool-use request
(correlation id, tool name, input object), or a tool result
(correlation id, result text). -/
inductive ContentBlock where
  | text (s : String)
  | toolUse (id : String) (name : String) (input : List (String × String))
  | toolResult (tool_use_id : String) (content : String)
deriving DecidableEq, Repr

/-- Message content: either a plain string (as used for user questions) or a
list of blocks (as used for assistant turns and tool-result turns). -/
inductive Content where
  | str (s : String)
  | blocks (bs : List ContentBlock)
deriving DecidableEq, Repr

structure Message where
  role : Role
  content : Content
deriving DecidableEq, Repr

def isToolUse : ContentBlock → Bool
  | .toolUse _ _ _ => true
  | _ => false

/-- `ConversationManager._has_tool_use`: an assistant message contains
`tool_use` blocks (a string content never does). -/
def has_tool_use (m : Message) : Bool :=
  match m.content with
  | .blocks bs => bs.any isToolUse
  | .str _ => false

/-- The role `ConversationManager._validate_history` expects at index `i`:
`assistant` at odd indices, `user` at even indices. -/
def expected_role (i : Nat) : Role :=
  if i % 2 == 1 then Role.assistant else Role.user

/-- `ConversationManager._validate_history`: messages strictly alternate
user/assistant starting with user (empty histories are valid). -/
def validate_history (ms : List Message) : Bool :=
  match ms with
  | [] => true
  | m0 :: _ =>
    m0.role == Role.user &&
    (List.range ms.length).all fun i =>
      i == 0 ||
      match ms.get? i with
      | some m => m.role == expected_role i
      | none => true

/-- History truncation in `ConversationManager.ask`: when the message count
exceeds the cap, keep the first message and drop an (evened-up) count of
messages immediately after it. -/
def truncate_history (max_history_messages : Nat) (ms : List Message) :
    List Message :=
  if max_history_messages < ms.length then
    let trimmed := ms.length - max_history_messages
    let trimmed := trimmed + trimmed % 2
    ms.take 1 ++ ms.drop (1 + trimmed)
  else ms

/-- The `while` loop of the crash-repair code in `ConversationManager.ask`,
with an explicit iteration bound (each pop shortens the list by one, so
`ms.length` rounds suffice): pop trailing messages while more than one
message remains and the last message's role is `user`. -/
def popTrailingUsers_go : Nat → List Message → List Message
  | 0, ms => ms
  | fuel + 1, ms =>
    if 1 < ms.length ∧ (ms.getLast?.any fun m => m.role == Role.user) then
      popTrailingUsers_go fuel ms.dropLast
    else
      ms

def popTrailingUsers (ms : List Message) : List Message :=
  popTrailingUsers_go ms.length ms

/-- The crash-repair in `ConversationManager.ask`: strip trailing `user`
messages, then strip a trailing `assistant` message that still carries
`tool_use` blocks. -/
def repair_history (ms : List Message) : List Message :=
  let ms1 := popTrailingUsers ms
  if 1 < ms1.length ∧ (ms1.getLast?.any fun m =>
      m.role == Role.assistant && has_tool_use m) then
    ms1.dropLast
  else
    ms1

section ValidateLemmas

theorem expected_role_zero : expected_role 0 = Role.user := rfl

theorem expected_role_even {i : Nat} (h : i % 2 = 0) :
    expected_role i = Role.user := by
  simp [expected_role, h]

theorem expected_role_odd {i : Nat} (h : i % 2 = 1) :
    expected_role i = Role.assistant := by
  simp [expected_role, h]

/-- Index characterisation of `validate_history`. -/
theorem validate_history_iff (ms : List Message) :
    validate_history ms = true ↔
      ∀ i m, ms.get? i = some m → m.role = expected_role i := by
  cases ms with
  | nil => simp [validate_history]
  | cons m0 rest =>
    simp only [validate_history, Bool.and_eq_true, List.all_eq_true,
      List.mem_range, beq_iff_eq]
    constructor
    · rintro ⟨h0, hall⟩ i m hget
      cases i with
      | zero =>
        simp only [List.get?] at hget
        cases hget
        simpa [expected_role_zero] using h0
      | succ j =>
        have hlt : j + 1 < (m0 :: rest).length := by
          have := List.get?_eq_some.mp hget
          exact this.1
        have := hall (j + 1) hlt
        simp only [hget] at this
        simpa using this
    · intro h
      refine ⟨?_, ?_⟩
      · have := h 0 m0 rfl
        simpa [expected_role_zero] using this
      · intro i _
        cases i with
        | zero => simp
        | succ j =>
          cases hget : (m0 :: rest).get? (j + 1) with
          | none => simp
          | some m =>
            have := h (j + 1) m hget
            simp [this]

theorem validate_history_nil : validate_history [] = true := rfl

theorem validate_history_singleton_user (c : Content) :
    validate_history [⟨Role.user, c⟩] = true := by
  rw [validate_history_iff]
  intro i m hget
  cases i with
  | zero =>
    simp only [List.get?] at hget
    cases hget
    simp [expected_role_zero]
  | succ j => simp [List.get?] at hget

/-- Appending one message keeps the history valid iff the history was valid
and the new message carries the role expected at the old length. -/
theorem validate_history_append_iff (ms : List Message) (m : Message) :
    validate_history (ms ++ [m]) = true ↔
      (validate_history ms = true ∧ m.role = expected_role ms.length) := by
  rw [validate_history_iff, validate_history_iff]
  constructor
  · intro h
    refine ⟨?_, ?_⟩
    · intro i x hget
      refine h i x ?_
      have hlt : i < ms.length := (List.get?_eq_some.mp hget).1
      rw [List.get?_append hlt]
      exact hget
    · have : (ms ++ [m]).get? ms.length = some m := List.get?_concat_length ms m
      exact h ms.length m this
  · rintro ⟨hms, hm⟩ i x hget
    rcases Nat.lt_trichotomy i ms.length with hlt | heq | hgt
    · rw [List.get?_append hlt] at hget
      exact hms i x hget
    · subst heq
      rw [List.get?_concat_length] at hget
      cases hget
      exact hm
    · exfalso
      have hlen : i < (ms ++ [m]).length := (List.get?_eq_some.mp hget).1
      simp only [List.length_append, List.length_singleton] at hlen
      omega

/-- In a valid history ending with a `user` message the length is odd. -/
theorem validate_history_length_odd {ms : List Message} {m : Message}
    (hval : validate_history (ms ++ [m]) = true) (hrole : m.role = Role.user) :
    (ms ++ [m]).length % 2 = 1 := by
  have h := (validate_history_append_iff ms m).mp hval
  have hm := h.2
  rw [hrole] at hm
  by_cases hpar : ms.length % 2 = 1
  · rw [expected_role_odd hpar] at hm
    exact absurd hm.symm (by simp)
  · have : ms.length % 2 = 0 := by omega
    simp only [List.length_append, List.length_singleton]
    omega

end ValidateLemmas

/-! ### MCP tool registry and dispatch (`src/mcp_client.py`) -/

/-- `_HIDDEN_TOOLS` in `mcp_client.py`: Serena meta/setup tools that are not
exposed to the agent. -/
def HIDDEN_TOOLS : List String :=
  ["initial_instructions", "onboarding", "check_onboarding_performed",
   "prepare_for_new_conversation", "switch_modes", "get_current_config",
   "activate_project", "write_memory", "read_memory", "list_memories",
   "delete_memory", "edit_memory"]

/-- A tool as reported by `session.list_tools()`. -/
structure DiscoveredTool where
  name : String
  description : String
  inputSchema : String
deriving DecidableEq, Repr

/-- An Anthropic-format tool schema as built by `_connect_server`. -/
structure ToolSchema where
  name : String
  description : String
  input_schema : String
deriving DecidableEq, Repr

/-- The namespacing applied in `_connect_server`:
`f"mcp__{name}__{tool.name}"`. -/
def namespaced_name (server tool : String) : String :=
  "mcp__" ++ server ++ "__" ++ tool

/-- The discovery loop of `MCPManager._connect_server`: every discovered tool
is entered into the tool map, but hidden tools are skipped when building the
schema list forwarded to the model. Returns the `(tool_map, tool_schemas)`
contributions of this server. -/
def register_tools (server : String) (tools : List DiscoveredTool) :
    List (String × String × String) × List ToolSchema :=
  match tools with
  | [] => ([], [])
  | t :: rest =>
    let (map_rest, schemas_rest) := register_tools server rest
    let map := (namespaced_name server t.name, server, t.name) :: map_rest
    if t.name ∈ HIDDEN_TOOLS then
      (map, schemas_rest)
    else
      (map, ⟨namespaced_name server t.name, t.description, t.inputSchema⟩
              :: schemas_rest)

/-- A content block of an MCP tool-call result: either a block with a `text`
attribute, or some other block rendered via `str(block)`. -/
inductive MCPBlock where
  | textBlock (text : String)
  | otherBlock (rendered : String)
deriving DecidableEq, Repr

/-- Model of an `MCPManager`: the namespaced tool map, the pre-computed repo
overview (modelled from the spec: `compute_overview`/`get_overview` are not
part of the sources, the spec describes the overview as a pre-computed
whole-repository text), and the behaviour of `session.call_tool` for each
server: either a result content list or a raised exception message. -/
structure MCPModel where
  tool_map : List (String × String × String)
  overview : Option String
  call_result : String → String → List (String × String) →
    Except String (List MCPBlock)

/-- `MCPManager.is_mcp_tool`: membership in the tool map. -/
def is_mcp_tool (mgr : MCPModel) (name : String) : Bool :=
  (mgr.tool_map.lookup name).isSome

/-- The result-combining and exception handling of `MCPManager.call_tool`:
text parts of all content blocks are joined with newlines, an empty content
list yields `"(empty response)"`, and a raised exception is converted into a
`"MCP tool error: ..."` text. -/
def mcp_call_result (outcome : Except String (List MCPBlock)) : String :=
  match outcome with
  | .ok blocks =>
    let parts := blocks.map fun b =>
      match b with
      | .textBlock t => t
      | .otherBlock s => s
    if parts.isEmpty then "(empty response)"
    else String.intercalate "\n" parts
  | .error e => "MCP tool error: " ++ e

/-- `MCPManager.call_tool`: resolve the namespaced name in the tool map and
run the provider call (`none` when the name is not registered, in which case
the Python code would raise `KeyError`; the agent loop guards this with
`is_mcp_tool`). -/
def call_tool (mgr : MCPModel) (name : String)
    (arguments : List (String × String)) : Option String :=
  (mgr.tool_map.lookup name).map fun sn =>
    mcp_call_result (mgr.call_result sn.1 sn.2 arguments)

/-! ### The agent loop (`src/agent.py`) -/

def OVERVIEW_TOOL_NAME : String := "get_repo_overview"

def unknown_tool_error (name : String) : String :=
  "Error: unknown tool \x27" ++ name ++
  "\x27. Use one of the tools listed in your tool definitions."

/-- The per-invocation dispatch in `ask` (`agent.py` lines 282-290): the
virtual overview tool is answered locally, unregistered names produce a
textual unknown-tool error, and registered names are dispatched through
`call_tool`. -/
def dispatch_tool (mgr : MCPModel) (name : String)
    (input : List (String × String)) : String :=
  if name == OVERVIEW_TOOL_NAME then
    match mgr.overview with
    | some o => if o = "" then "(overview not available)" else o
    | none => "(overview not available)"
  else
    match call_tool mgr name input with
    | some result => result
    | none => unknown_tool_error name

/-- A final model message as consumed by the loop: the stop reason and the
content blocks. -/
structure ModelResponse where
  stop_reason : String
  content : List ContentBlock
deriving DecidableEq, Repr

/-- `"\n".join(block.text for block in response.content if block.type == "text")` -/
def join_text_blocks (content : List ContentBlock) : String :=
  String.intercalate "\n" (content.filterMap fun b =>
    match b with
    | .text s => some s
    | _ => none)

/-- The tool-processing loop in `ask`: for every `tool_use` block, in order,
dispatch and collect a `tool_result` block keyed by the correlation id. -/
def process_tool_calls (mgr : MCPModel) (content : List ContentBlock) :
    List ContentBlock :=
  content.filterMap fun b =>
    match b with
    | .toolUse id name input =>
      some (.toolResult id (dispatch_tool mgr name input))
    | _ => none

/-- The in-band budget warning appended when iterations run low. -/
def budget_warning_text (remaining : Nat) : String :=
  "\n\n[SYSTEM: You have " ++ toString (remaining - 1) ++ " tool call" ++
  (if remaining > 2 then "s" else "") ++ " remaining. " ++
  "You MUST give your final answer NOW based on what you have found so far. " ++
  "Do NOT make any more tool calls.]"

def append_to_result_text (w : String) : ContentBlock → ContentBlock
  | .toolResult id c => .toolResult id (c ++ w)
  | b => b

/-- `tool_results[-1]["content"] += ...` guarded by
`remaining <= 5 and tool_results`. -/
def apply_budget_warning (remaining : Nat) (tool_results : List ContentBlock) :
    List ContentBlock :=
  if remaining ≤ 5 ∧ tool_results ≠ [] then
    tool_results.dropLast ++
      ((tool_results.getLast?.map
          (append_to_result_text (budget_warning_text remaining))).toList)
  else
    tool_results

/-- The message appended when max iterations are reached, before the forced
tools-free final call. -/
def FORCE_FINAL_PROMPT : String :=
  "[SYSTEM: You have used all your tool calls. Give your final answer " ++
  "NOW using only what you have already found. Do not apologise or say " ++
  "you ran out of steps - just answer the question directly.]"

/-- Observable outcome of one agent run: the answer, the final message list
(the in-place mutated history), the number of tool-processing turns, whether
the forced-termination path ran, and for each model call in order whether
tools were offered. -/
structure AskResult where
  answer : String
  messages : List Message
  toolTurns : Nat
  forced : Bool
  calls : List Bool
deriving Repr

/-- The loop of `ask` in `agent.py`, indexed by the remaining iteration count
(`remaining = max_iterations - step`) and by the index of the next model
call in `oracle` (the per-call final message produced by
`_stream_with_retry` on success). -/
def ask_go (oracle : Nat → ModelResponse) (mgr : MCPModel) :
    Nat → Nat → List Message → AskResult
  | 0, callIdx, messages =>
    let messages := messages ++ [⟨Role.user, Content.str FORCE_FINAL_PROMPT⟩]
    let response := oracle callIdx
    { answer := join_text_blocks response.content,
      messages := messages ++ [⟨Role.assistant, Content.blocks response.content⟩],
      toolTurns := 0, forced := true, calls := [false] }
  | remaining + 1, callIdx, messages =>
    let response := oracle callIdx
    if response.stop_reason == "end_turn" then
      { answer := join_text_blocks response.content,
        messages := messages ++ [⟨Role.assistant, Content.blocks response.content⟩],
        toolTurns := 0, forced := false, calls := [true] }
    else
      let tool_results := process_tool_calls mgr response.content
      let tool_results := apply_budget_warning (remaining + 1) tool_results
      let messages := messages ++
        [⟨Role.assistant, Content.blocks response.content⟩,
         ⟨Role.user, Content.blocks tool_results⟩]
      let r := ask_go oracle mgr remaining (callIdx + 1) messages
      { r with toolTurns := r.toolTurns + 1, calls := true :: r.calls }

/-- `ask` in `agent.py` with the model client abstracted into `oracle`:
call `ask_go` with the full iteration budget. -/
def agent_ask (oracle : Nat → ModelResponse) (mgr : MCPModel)
    (max_iterations : Nat) (messages : List Message) : AskResult :=
  ask_go oracle mgr max_iterations 0 messages

/-! ### Retry policy (`_stream_with_retry` in `src/agent.py`) -/

def MAX_RETRIES : Nat := 5

/-- One attempt of the streamed model call: either the final message, or a
raised `anthropic.APIStatusError` carrying whether it is a `RateLimitError`
and its HTTP status code. (Exceptions that are not `APIStatusError` are not
caught by the retry loop at all and propagate on the first attempt.) -/
inductive CallOutcome where
  | ok (resp : ModelResponse)
  | apiStatusError (isRateLimit : Bool) (status : Nat)
deriving DecidableEq, Repr

/-- The retry condition in `_stream_with_retry`:
`isinstance(e, anthropic.RateLimitError) or e.status_code == 529`. -/
def is_retryable (isRateLimit : Bool) (status : Nat) : Bool :=
  isRateLimit || status == 529

/-- Result of `_stream_with_retry`: the returned message or the re-raised
error, together with the number of backoff sleeps performed. -/
inductive RetryResult where
  | ok (resp : ModelResponse) (sleeps : Nat)
  | raised (isRateLimit : Bool) (status : Nat) (sleeps : Nat)
deriving DecidableEq, Repr

/-- The `for attempt in range(MAX_RETRIES)` loop of `_stream_with_retry`,
with `attempts` the per-attempt client behaviour. `fuel` counts the loop
iterations left; falling off the loop end (impossible when started with
`fuel = MAX_RETRIES` at `attempt = 0`) models the implicit `None` return as
`Option.none`. -/
def retry_go (attempts : Nat → CallOutcome) :
    Nat → Nat → Nat → Option RetryResult
  | 0, _, _ => none
  | fuel + 1, attempt, sleeps =>
    match attempts attempt with
    | .ok resp => some (.ok resp sleeps)
    | .apiStatusError rl st =>
      if ¬ is_retryable rl st ∨ attempt = MAX_RETRIES - 1 then
        some (.raised rl st sleeps)
      else
        retry_go attempts fuel (attempt + 1) (sleeps + 1)

/-- `_stream_with_retry` with the streaming client abstracted into the
per-attempt outcomes. -/
def stream_with_retry (attempts : Nat → CallOutcome) : Option RetryResult :=
  retry_go attempts MAX_RETRIES 0 0

/-! ### The conversation manager (`src/conversation_manager.py`) -/

/-- The configuration values read by `ConversationManager.__init__`
(the semaphore is not part of the sequential model). -/
structure CMConfig where
  conversation_ttl : Nat
  max_history_messages : Nat
  response_cache_ttl : Nat
deriving Repr

/-- The mutable state of a `ConversationManager`, with the dictionaries
modelled as association lists (lookup takes the first matching key; keys are
kept unique by `assoc_set`). -/
structure CMState where
  histories : List (String × List Message)
  last_access : List (String × Nat)
  response_cache : List (String × String × Nat)

/-- Dictionary assignment `d[k] = v`: replace any existing binding of `k`. -/
def assoc_set {α : Type} (k : String) (v : α) (l : List (String × α)) :
    List (String × α) :=
  (k, v) :: l.filter fun p => p.1 ≠ k

/-- `ConversationManager._cleanup_expired`: drop conversations whose last
access is older than `conversation_ttl` and cache entries older than
`response_cache_ttl`. -/
def cleanup_expired (cfg : CMConfig) (st : CMState) (now : Nat) : CMState :=
  let expired := (st.last_access.filter fun p =>
    cfg.conversation_ttl < now - p.2).map Prod.fst
  { histories := st.histories.filter fun p => p.1 ∉ expired,
    last_access := st.last_access.filter fun p =>
      ¬ cfg.conversation_ttl < now - p.2,
    response_cache := st.response_cache.filter fun e =>
      ¬ cfg.response_cache_ttl < now - e.2.2 }

/-- The cache key normalisation `question.strip().lower()`. -/
def cache_key_of (question : String) : String :=
  question.trim.toLower

/-- `is_followup = conversation_id and conversation_id in self._histories`. -/
def is_followup_check (st : CMState) (conversation_id : Option String) : Bool :=
  match conversation_id with
  | some cid => (st.histories.lookup cid).isSome
  | none => false

/-- The agent run as seen by the manager: either a successful run returning
the answer and the final in-place mutated message list, or a raised exception
leaving the partially mutated message list behind. -/
inductive AgentResult where
  | ok (answer : String) (final : List Message)
  | err (crashed : List Message)

/-- Observable outcome of one `ConversationManager.ask` call: the returned
answer or the re-raised exception, the state afterwards, whether the agent
loop ran, and the exact message list handed to the agent loop (`none` on a
cache hit). -/
structure ManagerOutcome where
  result : Except Unit String
  state : CMState
  ranAgent : Bool
  sentToAgent : Option (List Message)

/-- The history preparation steps of `ConversationManager.ask`: retrieve or
create the message list, append the new user question, reset it if the
alternation is violated, and truncate it to the cap. This is the exact list
handed to the agent loop. -/
def prepared_messages (cfg : CMConfig) (st : CMState) (question : String)
    (conversation_id : Option String) (is_followup : Bool) : List Message :=
  let messages :=
    if is_followup then
      (match conversation_id with
       | some cid => (st.histories.lookup cid).getD []
       | none => []) ++ [⟨Role.user, Content.str question⟩]
    else
      [⟨Role.user, Content.str question⟩]
  let messages :=
    if validate_history messages then messages
    else [⟨Role.user, Content.str question⟩]
  truncate_history cfg.max_history_messages messages

/-- The part of `ConversationManager.ask` after the cache check: build the
history, store it, validate/reset, truncate, run the agent, and perform the
success bookkeeping or the crash repair. -/
def manager_ask_run (cfg : CMConfig) (st : CMState)
    (agent : List Message → AgentResult) (now : Nat) (question : String)
    (conversation_id : Option String) (is_followup : Bool)
    (cache_key : String) : ManagerOutcome :=
  let messages := prepared_messages cfg st question conversation_id is_followup
  let st :=
    match conversation_id with
    | some cid =>
      { st with histories := assoc_set cid messages st.histories,
                last_access := assoc_set cid now st.last_access }
    | none => st
  match agent messages with
  | .ok answer final =>
    let st :=
      match conversation_id with
      | some cid =>
        { st with histories := assoc_set cid final st.histories,
                  last_access := assoc_set cid now st.last_access }
      | none => st
    let st :=
      if is_followup then st
      else { st with
             response_cache := assoc_set cache_key (answer, now)
               st.response_cache }
    { result := .ok answer, state := st, ranAgent := true,
      sentToAgent := some messages }
  | .err crashed =>
    let repaired := repair_history crashed
    let st :=
      match conversation_id with
      | some cid => { st with histories := assoc_set cid repaired st.histories }
      | none => st
    { result := .error (), state := st, ranAgent := true,
      sentToAgent := some messages }

/-- `ConversationManager.ask`: lazy cleanup, cache check (before touching the
history), then the run path. The in-place mutation of the stored message list
is modelled by writing the current list value to the store at each point
where the stored value is observable. -/
def manager_ask (cfg : CMConfig) (st : CMState)
    (agent : List Message → AgentResult) (now : Nat) (question : String)
    (conversation_id : Option String) : ManagerOutcome :=
  let st := cleanup_expired cfg st now
  let is_followup := is_followup_check st conversation_id
  let cache_key := cache_key_of question
  match (if is_followup then none else st.response_cache.lookup cache_key) with
  | some (cached_answer, ts) =>
    if now - ts ≤ cfg.response_cache_ttl then
      { result := .ok cached_answer, state := st, ranAgent := false,
        sentToAgent := none }
    else
      manager_ask_run cfg st agent now question conversation_id is_followup
        cache_key
  | none =>
    manager_ask_run cfg st agent now question conversation_id is_followup
      cache_key

/-- The agent loop packaged as the manager's agent argument, for runs in
which no exception is raised: the answer and final message list of
`agent_ask`. -/
def agent_of (oracle : Nat → ModelResponse) (mgr : MCPModel)
    (max_iterations : Nat) : List Message → AgentResult := fun ms =>
  let r := agent_ask oracle mgr max_iterations ms
  .ok r.answer r.messages

/-! ### Retry policy lemmas -/

def sleeps_of : RetryResult → Nat
  | .ok _ s => s
  | .raised _ _ s => s

theorem retry_go_sleeps_le (attempts : Nat → CallOutcome) :
    ∀ fuel attempt s res, retry_go attempts fuel attempt s = some res →
      sleeps_of res ≤ s + fuel - 1 := by
  intro fuel
  induction fuel with
  | zero => intro attempt s res h; simp [retry_go] at h
  | succ fuel ih =>
    intro attempt s res h
    rw [retry_go] at h
    cases hout : attempts attempt with
    | ok resp =>
      rw [hout] at h
      cases h
      simp [sleeps_of]
    | apiStatusError rl st =>
      rw [hout] at h
      dsimp only at h
      by_cases hc : ¬ is_retryable rl st = true ∨ attempt = MAX_RETRIES - 1
      · rw [if_pos hc] at h
        cases h
        simp [sleeps_of]
      · rw [if_neg hc] at h
        have := ih (attempt + 1) (s + 1) res h
        omega

/-- C4: the model-client retry policy: (1) a non-retryable error on the first
attempt is re-raised immediately with no backoff sleep, and (2) more
generally a non-retryable error raises immediately at whatever attempt it
occurs, with no further sleep; (3) two retryable rate-limit failures
followed by a success return the successful response after exactly 2 backoff
sleeps; (4) if every attempt fails with a retryable error, the loop performs
all `MAX_RETRIES` attempts and re-raises the last error; (5) every completed
call performs at most `MAX_RETRIES` attempts (backoff sleeps + 1). -/
theorem retry_policy_properties :
    (∀ (attempts : Nat → CallOutcome) (rl : Bool) (st : Nat),
      is_retryable rl st = false →
      attempts 0 = .apiStatusError rl st →
      stream_with_retry attempts = some (.raised rl st 0)) ∧
    (∀ (attempts : Nat → CallOutcome) (fuel attempt s : Nat) (rl : Bool)
      (st : Nat),
      is_retryable rl st = false →
      attempts attempt = .apiStatusError rl st →
      retry_go attempts (fuel + 1) attempt s = some (.raised rl st s)) ∧
    (∀ (attempts : Nat → CallOutcome) (resp : ModelResponse),
      attempts 0 = .apiStatusError true 429 →
      attempts 1 = .apiStatusError true 429 →
      attempts 2 = .ok resp →
      stream_with_retry attempts = some (.ok resp 2)) ∧
    (∀ (attempts : Nat → CallOutcome),
      (∀ i, i < MAX_RETRIES → ∃ rl st, attempts i = .apiStatusError rl st ∧
        is_retryable rl st = true) →
      ∃ rl st, attempts (MAX_RETRIES - 1) = .apiStatusError rl st ∧
        stream_with_retry attempts =
          some (.raised rl st (MAX_RETRIES - 1))) ∧
    (∀ (attempts : Nat → CallOutcome) (res : RetryResult),
      stream_with_retry attempts = some res →
      sleeps_of res + 1 ≤ MAX_RETRIES) := by
  refine ⟨?_, ?_, ?_, ?_, ?_⟩
  · intro attempts rl st hrl h0
    simp [stream_with_retry, MAX_RETRIES, retry_go, h0, hrl]
  · intro attempts fuel attempt s rl st hrl hatt
    simp [retry_go, hatt, hrl]
  · intro attempts resp h0 h1 h2
    simp [stream_with_retry, MAX_RETRIES, retry_go, h0, h1, h2, is_retryable]
  · intro attempts hall
    obtain ⟨rl0, st0, h0, hr0⟩ := hall 0 (by norm_num [MAX_RETRIES])
    obtain ⟨rl1, st1, h1, hr1⟩ := hall 1 (by norm_num [MAX_RETRIES])
    obtain ⟨rl2, st2, h2, hr2⟩ := hall 2 (by norm_num [MAX_RETRIES])
    obtain ⟨rl3, st3, h3, hr3⟩ := hall 3 (by norm_num [MAX_RETRIES])
    obtain ⟨rl4, st4, h4, hr4⟩ := hall 4 (by norm_num [MAX_RETRIES])
    refine ⟨rl4, st4, by simpa [MAX_RETRIES] using h4, ?_⟩
    simp [stream_with_retry, MAX_RETRIES, retry_go,
      h0, hr0, h1, hr1, h2, hr2, h3, hr3, h4, hr4]
  · intro attempts res h
    have := retry_go_sleeps_le attempts MAX_RETRIES 0 0 res h
    simp [MAX_RETRIES] at this ⊢
    omega

def retry_witness_attempts : Nat → CallOutcome := fun i =>
  if i < 2 then .apiStatusError true 429
  else .ok ⟨"end_turn", [ContentBlock.text "ok"]⟩

theorem retry_policy_properties_witness :
    stream_with_retry retry_witness_attempts =
      some (.ok ⟨"end_turn", [ContentBlock.text "ok"]⟩ 2) :=
  retry_policy_properties.2.2.1 retry_witness_attempts
    ⟨"end_turn", [ContentBlock.text "ok"]⟩ rfl rfl rfl

/-! ### Dispatch and registry lemmas -/

theorem namespaced_ne_overview (server tool : String) :
    namespaced_name server tool ≠ OVERVIEW_TOOL_NAME := by
  intro h
  have hd : (namespaced_name server tool).data = OVERVIEW_TOOL_NAME.data := by
    rw [h]
  simp only [namespaced_name, OVERVIEW_TOOL_NAME, String.data_append] at hd
  simp at hd

/-- C9: per-invocation tool dispatch never aborts the run: an unregistered
name that is not the virtual overview tool produces the textual unknown-tool
error, and a provider invocation that raises is converted into the
distinctly prefixed `"MCP tool error: ..."` text. -/
theorem dispatch_error_containment :
    (∀ (mgr : MCPModel) (name : String) (input : List (String × String)),
      name ≠ OVERVIEW_TOOL_NAME →
      is_mcp_tool mgr name = false →
      dispatch_tool mgr name input = unknown_tool_error name) ∧
    (∀ (mgr : MCPModel) (name : String) (input : List (String × String))
      (server orig e : String),
      name ≠ OVERVIEW_TOOL_NAME →
      mgr.tool_map.lookup name = some (server, orig) →
      mgr.call_result server orig input = .error e →
      dispatch_tool mgr name input = "MCP tool error: " ++ e) := by
  constructor
  · intro mgr name input hne hmcp
    have hbeq : (name == OVERVIEW_TOOL_NAME) = false := by
      simpa [beq_iff_eq] using hne
    have hlookup : mgr.tool_map.lookup name = none := by
      simp only [is_mcp_tool] at hmcp
      cases hl : mgr.tool_map.lookup name with
      | none => rfl
      | some v => rw [hl] at hmcp; simp at hmcp
    simp [dispatch_tool, hbeq, call_tool, hlookup]
  · intro mgr name input server orig e hne hlookup hcall
    have hbeq : (name == OVERVIEW_TOOL_NAME) = false := by
      simpa [beq_iff_eq] using hne
    simp [dispatch_tool, hbeq, call_tool, hlookup, hcall, mcp_call_result]

def dispatch_witness_mgr : MCPModel :=
  ⟨[("mcp__s__t", "s", "t")], none, fun _ _ _ => .error "boom"⟩

theorem dispatch_error_containment_witness :
    dispatch_tool dispatch_witness_mgr "nope" [] = unknown_tool_error "nope" ∧
    dispatch_tool dispatch_witness_mgr "mcp__s__t" [] =
      "MCP tool error: " ++ "boom" :=
  ⟨dispatch_error_containment.1 dispatch_witness_mgr "nope" []
      (by decide) rfl,
   dispatch_error_containment.2 dispatch_witness_mgr "mcp__s__t" []
      "s" "t" "boom" (by decide) rfl rfl⟩

theorem register_tools_fst_cons (server : String) (t : DiscoveredTool)
    (rest : List DiscoveredTool) :
    (register_tools server (t :: rest)).1 =
      (namespaced_name server t.name, server, t.name) ::
        (register_tools server rest).1 := by
  simp only [register_tools]
  split <;> rfl

theorem register_tools_lookup_isSome (server : String)
    (tools : List DiscoveredTool) (t : DiscoveredTool) (ht : t ∈ tools) :
    ((register_tools server tools).1.lookup
      (namespaced_name server t.name)).isSome = true := by
  induction tools with
  | nil => cases ht
  | cons h rest ih =>
    rw [register_tools_fst_cons]
    rcases List.mem_cons.mp ht with heq | hmem
    · subst heq
      simp [List.lookup]
    · by_cases hk : namespaced_name server t.name =
        namespaced_name server h.name
      · simp [List.lookup, hk]
      · have hbeq : (namespaced_name server t.name ==
          namespaced_name server h.name) = false := by
          simpa [beq_iff_eq] using hk
        simp only [List.lookup, hbeq]
        exact ih hmem

theorem register_tools_schemas (server : String)
    (tools : List DiscoveredTool) :
    (register_tools server tools).2 =
      (tools.filter fun t => decide (t.name ∉ HIDDEN_TOOLS)).map fun t =>
        (⟨namespaced_name server t.name, t.description, t.inputSchema⟩ :
          ToolSchema) := by
  induction tools with
  | nil => rfl
  | cons h rest ih =>
    simp only [register_tools]
    by_cases hh : h.name ∈ HIDDEN_TOOLS
    · rw [if_pos hh]
      simp [List.filter, hh, ih]
    · rw [if_neg hh]
      simp [List.filter, hh, ih]

/-- C10: every discovered tool, hidden meta/setup tools included, is entered
into the dispatch map, so `is_mcp_tool` accepts its namespaced name and the
loop dispatch executes it through its provider rather than answering with the
unknown-tool error; only non-hidden tools contribute schemas forwarded to the
model. -/
theorem hidden_tools_registered :
    (∀ (server : String) (tools : List DiscoveredTool) (mgr : MCPModel)
      (t : DiscoveredTool),
      mgr.tool_map = (register_tools server tools).1 → t ∈ tools →
      is_mcp_tool mgr (namespaced_name server t.name) = true) ∧
    (∀ (server : String) (tools : List DiscoveredTool),
      (register_tools server tools).2 =
        (tools.filter fun t => decide (t.name ∉ HIDDEN_TOOLS)).map fun t =>
          (⟨namespaced_name server t.name, t.description, t.inputSchema⟩ :
            ToolSchema)) ∧
    (∀ (server : String) (tools : List DiscoveredTool) (mgr : MCPModel)
      (t : DiscoveredTool) (input : List (String × String)),
      mgr.tool_map = (register_tools server tools).1 → t ∈ tools →
      ∃ so : String × String,
        mgr.tool_map.lookup (namespaced_name server t.name) = some so ∧
        dispatch_tool mgr (namespaced_name server t.name) input =
          mcp_call_result (mgr.call_result so.1 so.2 input)) := by
  refine ⟨?_, register_tools_schemas, ?_⟩
  · intro server tools mgr t hmap ht
    simp only [is_mcp_tool, hmap]
    exact register_tools_lookup_isSome server tools t ht
  · intro server tools mgr t input hmap ht
    have hsome : (mgr.tool_map.lookup
        (namespaced_name server t.name)).isSome = true := by
      rw [hmap]
      exact register_tools_lookup_isSome server tools t ht
    cases hl : mgr.tool_map.lookup (namespaced_name server t.name) with
    | none => rw [hl] at hsome; simp at hsome
    | some so =>
      refine ⟨so, rfl, ?_⟩
      have hbeq : (namespaced_name server t.name == OVERVIEW_TOOL_NAME)
          = false := by
        simpa [beq_iff_eq] using namespaced_ne_overview server t.name
      simp [dispatch_tool, hbeq, call_tool, hl]

def registry_witness_tools : List DiscoveredTool :=
  [⟨"onboarding", "d", "s"⟩]

def registry_witness_mgr : MCPModel :=
  ⟨(register_tools "serena" registry_witness_tools).1, none,
   fun _ _ _ => .ok [.textBlock "done"]⟩

theorem hidden_tools_registered_witness :
    is_mcp_tool registry_witness_mgr
      (namespaced_name "serena" "onboarding") = true ∧
    (register_tools "serena" registry_witness_tools).2 = [] ∧
    (∃ so : String × String,
      registry_witness_mgr.tool_map.lookup
        (namespaced_name "serena" "onboarding") = some so ∧
      dispatch_tool registry_witness_mgr
          (namespaced_name "serena" "onboarding") [] =
        mcp_call_result (registry_witness_mgr.call_result so.1 so.2 [])) :=
  ⟨hidden_tools_registered.1 "serena" registry_witness_tools
      registry_witness_mgr ⟨"onboarding", "d", "s"⟩ rfl (by decide),
   by rw [hidden_tools_registered.2.1 "serena" registry_witness_tools]; rfl,
   hidden_tools_registered.2.2 "serena" registry_witness_tools
      registry_witness_mgr ⟨"onboarding", "d", "s"⟩ [] rfl (by decide)⟩

/-! ### Agent loop lemmas -/

theorem ask_go_all_tool_turns (oracle : Nat → ModelResponse) (mgr : MCPModel) :
    ∀ (N c : Nat) (ms : List Message),
      (∀ i, i < N → (oracle (c + i)).stop_reason ≠ "end_turn") →
      (ask_go oracle mgr N c ms).toolTurns = N ∧
      (ask_go oracle mgr N c ms).calls = List.replicate N true ++ [false] ∧
      (ask_go oracle mgr N c ms).forced = true ∧
      (ask_go oracle mgr N c ms).answer =
        join_text_blocks (oracle (c + N)).content := by
  intro N
  induction N with
  | zero =>
    intro c ms _
    refine ⟨rfl, rfl, rfl, ?_⟩
    simp [ask_go]
  | succ n ih =>
    intro c ms h
    have h0 : (oracle c).stop_reason ≠ "end_turn" := by
      simpa using h 0 (by omega)
    have hbeq : ((oracle c).stop_reason == "end_turn") = false := by
      simpa [beq_iff_eq] using h0
    have ihc := ih (c + 1)
      (ms ++ [⟨Role.assistant, Content.blocks (oracle c).content⟩,
              ⟨Role.user, Content.blocks (apply_budget_warning (n + 1)
                (process_tool_calls mgr (oracle c).content))⟩])
      (fun i hi => by
        have := h (i + 1) (by omega)
        simpa [Nat.add_assoc, Nat.add_comm 1 i] using this)
    simp only [ask_go, hbeq, Bool.false_eq_true, if_false]
    refine ⟨?_, ?_, ?_, ?_⟩
    · simpa using ihc.1
    · simp only [ihc.2.1, List.replicate_succ]
      rfl
    · exact ihc.2.2.1
    · have := ihc.2.2.2
      simpa [Nat.add_assoc, Nat.add_comm 1 n] using this

/-- C3: with a budget of `N` iterations and a model that requests a tool on
every turn, the loop performs exactly `N` tool-turns (so at most `N`), then
issues exactly one final model call with no tools offered, and returns that
call's joined text blocks as the answer. -/
theorem forced_termination_bound (oracle : Nat → ModelResponse)
    (mgr : MCPModel) (N : Nat) (ms : List Message)
    (h : ∀ i, i < N → (oracle i).stop_reason ≠ "end_turn" ∧
      (oracle i).content.any isToolUse = true) :
    (agent_ask oracle mgr N ms).toolTurns = N ∧
    (agent_ask oracle mgr N ms).calls = List.replicate N true ++ [false] ∧
    (agent_ask oracle mgr N ms).forced = true ∧
    (agent_ask oracle mgr N ms).answer =
      join_text_blocks (oracle N).content := by
  have := ask_go_all_tool_turns oracle mgr N 0 ms
    (fun i hi => by simpa using (h i hi).1)
  simpa [agent_ask] using this

def c3_witness_oracle : Nat → ModelResponse := fun i =>
  if i < 2 then ⟨"tool_use", [ContentBlock.toolUse "i" "t" []]⟩
  else ⟨"end_turn", [ContentBlock.text "done"]⟩

def c3_witness_mgr : MCPModel := ⟨[], none, fun _ _ _ => .ok []⟩

theorem forced_termination_bound_witness :
    (agent_ask c3_witness_oracle c3_witness_mgr 2 []).toolTurns = 2 ∧
    (agent_ask c3_witness_oracle c3_witness_mgr 2 []).calls =
      List.replicate 2 true ++ [false] ∧
    (agent_ask c3_witness_oracle c3_witness_mgr 2 []).forced = true ∧
    (agent_ask c3_witness_oracle c3_witness_mgr 2 []).answer =
      join_text_blocks (c3_witness_oracle 2).content :=
  forced_termination_bound c3_witness_oracle c3_witness_mgr 2 []
    (fun i hi => by
      interval_cases i <;> exact ⟨by decide, by decide⟩)

theorem ask_go_messages_extend (oracle : Nat → ModelResponse)
    (mgr : MCPModel) :
    ∀ (remaining callIdx : Nat) (ms : List Message),
      ∃ t, (ask_go oracle mgr remaining callIdx ms).messages = ms ++ t := by
  intro remaining
  induction remaining with
  | zero =>
    intro callIdx ms
    refine ⟨[⟨Role.user, Content.str FORCE_FINAL_PROMPT⟩,
             ⟨Role.assistant, Content.blocks (oracle callIdx).content⟩], ?_⟩
    simp [ask_go]
  | succ n ih =>
    intro callIdx ms
    by_cases hstop : ((oracle callIdx).stop_reason == "end_turn") = true
    · refine ⟨[⟨Role.assistant, Content.blocks (oracle callIdx).content⟩], ?_⟩
      simp [ask_go, hstop]
    · have hbeq : ((oracle callIdx).stop_reason == "end_turn") = false := by
        simpa using hstop
      obtain ⟨t, ht⟩ := ih (callIdx + 1)
        (ms ++ [⟨Role.assistant, Content.blocks (oracle callIdx).content⟩,
                ⟨Role.user, Content.blocks (apply_budget_warning (n + 1)
                  (process_tool_calls mgr (oracle callIdx).content))⟩])
      refine ⟨[⟨Role.assistant, Content.blocks (oracle callIdx).content⟩,
               ⟨Role.user, Content.blocks (apply_budget_warning (n + 1)
                 (process_tool_calls mgr (oracle callIdx).content))⟩] ++ t, ?_⟩
      simp only [ask_go, hbeq, Bool.false_eq_true, if_false]
      rw [ht]
      simp

theorem ask_go_toolTurns_le (oracle : Nat → ModelResponse) (mgr : MCPModel) :
    ∀ (remaining callIdx : Nat) (ms : List Message),
      (ask_go oracle mgr remaining callIdx ms).toolTurns ≤ remaining := by
  intro remaining
  induction remaining with
  | zero => intro callIdx ms; simp [ask_go]
  | succ n ih =>
    intro callIdx ms
    by_cases hstop : ((oracle callIdx).stop_reason == "end_turn") = true
    · simp [ask_go, hstop]
    · have hbeq : ((oracle callIdx).stop_reason == "end_turn") = false := by
        simpa using hstop
      simp only [ask_go, hbeq, Bool.false_eq_true, if_false]
      have := ih (callIdx + 1)
        (ms ++ [⟨Role.assistant, Content.blocks (oracle callIdx).content⟩,
                ⟨Role.user, Content.blocks (apply_budget_warning (n + 1)
                  (process_tool_calls mgr (oracle callIdx).content))⟩])
      omega

/-- C8: the low-budget warning: when the remaining-iteration count is at the
threshold (≤ 5) and the turn produced at least one tool result, the warning
text (stating `remaining - 1`, the exact number of tool turns the loop can
still perform, as also bounded by `ask_go_toolTurns_le`) is appended to the
text of the last tool result only; otherwise the results are untouched; and
every tool-turn appends the (possibly warned) results as the next `user`
message of the history. -/
theorem budget_warning_behaviour :
    (∀ (remaining : Nat) (rs : List ContentBlock) (id c : String),
      remaining ≤ 5 → rs.getLast? = some (.toolResult id c) →
      apply_budget_warning remaining rs =
        rs.dropLast ++
          [.toolResult id (c ++ budget_warning_text remaining)]) ∧
    (∀ (remaining : Nat) (rs : List ContentBlock),
      ¬ (remaining ≤ 5 ∧ rs ≠ []) →
      apply_budget_warning remaining rs = rs) ∧
    (∀ (oracle : Nat → ModelResponse) (mgr : MCPModel) (r ci : Nat)
      (ms : List Message),
      (oracle ci).stop_reason ≠ "end_turn" →
      ∃ t, (ask_go oracle mgr (r + 1) ci ms).messages =
        ms ++ [⟨Role.assistant, Content.blocks (oracle ci).content⟩,
               ⟨Role.user, Content.blocks (apply_budget_warning (r + 1)
                 (process_tool_calls mgr (oracle ci).content))⟩] ++ t) ∧
    (∀ (oracle : Nat → ModelResponse) (mgr : MCPModel)
      (remaining ci : Nat) (ms : List Message),
      (ask_go oracle mgr remaining ci ms).toolTurns ≤ remaining) := by
  refine ⟨?_, ?_, ?_, fun oracle mgr remaining ci ms =>
    ask_go_toolTurns_le oracle mgr remaining ci ms⟩
  · intro remaining rs id c hrem hlast
    have hne : rs ≠ [] := by
      intro h
      rw [h] at hlast
      simp at hlast
    simp [apply_budget_warning, hrem, hne, hlast, append_to_result_text]
  · intro remaining rs hcond
    simp [apply_budget_warning, hcond]
  · intro oracle mgr r ci ms hstop
    have hbeq : ((oracle ci).stop_reason == "end_turn") = false := by
      simpa [beq_iff_eq] using hstop
    obtain ⟨t, ht⟩ := ask_go_messages_extend oracle mgr r (ci + 1)
      (ms ++ [⟨Role.assistant, Content.blocks (oracle ci).content⟩,
              ⟨Role.user, Content.blocks (apply_budget_warning (r + 1)
                (process_tool_calls mgr (oracle ci).content))⟩])
    refine ⟨t, ?_⟩
    simp only [ask_go, hbeq, Bool.false_eq_true, if_false]
    rw [ht]

theorem budget_warning_behaviour_witness :
    apply_budget_warning 3
        [ContentBlock.toolResult "a" "x", ContentBlock.toolResult "b" "y"] =
      [ContentBlock.toolResult "a" "x",
       ContentBlock.toolResult "b" ("y" ++ budget_warning_text 3)] := by
  have := budget_warning_behaviour.1 3
    [ContentBlock.toolResult "a" "x", ContentBlock.toolResult "b" "y"]
    "b" "y" (by decide) rfl
  simpa using this

/-- A run of the loop that ends by natural completion (not the forced path)
turns a valid odd-length history into a valid history. -/
theorem ask_go_valid (oracle : Nat → ModelResponse) (mgr : MCPModel) :
    ∀ (remaining callIdx : Nat) (ms : List Message),
      validate_history ms = true → ms.length % 2 = 1 →
      (ask_go oracle mgr remaining callIdx ms).forced = false →
      validate_history (ask_go oracle mgr remaining callIdx ms).messages
        = true := by
  intro remaining
  induction remaining with
  | zero =>
    intro callIdx ms _ _ hforced
    simp [ask_go] at hforced
  | succ n ih =>
    intro callIdx ms hval hodd hforced
    by_cases hstop : ((oracle callIdx).stop_reason == "end_turn") = true
    · simp only [ask_go, hstop, if_true]
      rw [validate_history_append_iff]
      exact ⟨hval, by simp [expected_role_odd hodd]⟩
    · have hbeq : ((oracle callIdx).stop_reason == "end_turn") = false := by
        simpa using hstop
      simp only [ask_go, hbeq, Bool.false_eq_true, if_false] at hforced ⊢
      set a : Message := ⟨Role.assistant, Content.blocks (oracle callIdx).content⟩
      set u : Message := ⟨Role.user, Content.blocks (apply_budget_warning (n + 1)
        (process_tool_calls mgr (oracle callIdx).content))⟩
      have hsplit : ms ++ [a, u] = (ms ++ [a]) ++ [u] := by simp
      have hval2 : validate_history ((ms ++ [a]) ++ [u]) = true := by
        rw [validate_history_append_iff, validate_history_append_iff]
        refine ⟨⟨hval, by simp [a, expected_role_odd hodd]⟩, ?_⟩
        have heven : (ms.length + 1) % 2 = 0 := by omega
        simp [u, List.length_append, expected_role_even heven]
      have hodd2 : ((ms ++ [a]) ++ [u]).length % 2 = 1 := by
        simp only [List.length_append, List.length_singleton]
        omega
      rw [hsplit] at hforced ⊢
      exact ih (callIdx + 1) ((ms ++ [a]) ++ [u]) hval2 hodd2 hforced

/-! ### Truncation lemmas -/

theorem expected_role_congr {i j : Nat} (h : i % 2 = j % 2) :
    expected_role i = expected_role j := by
  simp [expected_role, h]

/-- Removing an even number of messages right after the first one preserves
the alternation invariant. -/
theorem validate_take_drop (ms : List Message) (k : Nat)
    (hval : validate_history ms = true) (hk : k % 2 = 0) :
    validate_history (ms.take 1 ++ ms.drop (1 + k)) = true := by
  rw [validate_history_iff] at hval ⊢
  intro i m hget
  cases ms with
  | nil => simp at hget
  | cons m0 rest =>
    have h1 : (m0 :: rest).take 1 = [m0] := rfl
    rw [h1] at hget
    cases i with
    | zero =>
      rw [List.singleton_append] at hget
      have hm : m0 = m := by simpa [List.get?] using hget
      subst hm
      exact hval 0 m0 rfl
    | succ j =>
      rw [List.get?_append_right (by simp : ([m0] : List Message).length ≤ j + 1)] at hget
      simp only [List.length_singleton, Nat.add_sub_cancel] at hget
      rw [List.get?_drop] at hget
      have := hval _ _ hget
      rw [this]
      exact expected_role_congr (by omega)

theorem truncate_history_eq_of_lt (cap : Nat) (ms : List Message)
    (h : cap < ms.length) :
    truncate_history cap ms =
      ms.take 1 ++
        ms.drop (1 + ((ms.length - cap) + (ms.length - cap) % 2)) := by
  simp [truncate_history, h]

theorem truncate_history_eq_of_ge (cap : Nat) (ms : List Message)
    (h : ¬ cap < ms.length) :
    truncate_history cap ms = ms := by
  simp [truncate_history, h]

theorem truncate_history_valid (cap : Nat) (ms : List Message)
    (hval : validate_history ms = true) :
    validate_history (truncate_history cap ms) = true := by
  by_cases h : cap < ms.length
  · rw [truncate_history_eq_of_lt cap ms h]
    exact validate_take_drop ms _ hval (by omega)
  · rw [truncate_history_eq_of_ge cap ms h]
    exact hval

theorem truncate_history_length (cap : Nat) (ms : List Message)
    (h : cap < ms.length) :
    (truncate_history cap ms).length =
      min 1 ms.length +
        (ms.length - (1 + ((ms.length - cap) + (ms.length - cap) % 2))) := by
  rw [truncate_history_eq_of_lt cap ms h]
  simp [List.length_append, List.length_take, List.length_drop]

theorem truncate_history_odd (cap : Nat) (ms : List Message)
    (hodd : ms.length % 2 = 1) :
    (truncate_history cap ms).length % 2 = 1 := by
  by_cases h : cap < ms.length
  · rw [truncate_history_length cap ms h]
    omega
  · rw [truncate_history_eq_of_ge cap ms h]
    exact hodd

theorem truncate_history_singleton (cap : Nat) (m : Message) :
    truncate_history cap [m] = [m] := by
  by_cases h : cap < 1
  · have hc : cap = 0 := by omega
    subst hc
    rfl
  · simp [truncate_history, h]

/-- C7: truncation of an over-long valid history keeps the first message,
removes an even number of messages immediately after it, and the result
still satisfies the strict alternation invariant. (The cap hypothesis
`2 ≤ cap` excludes the degenerate configurations `cap ∈ {0, 1}`; the
configured value is 20.) -/
theorem truncation_properties (cap : Nat) (ms : List Message)
    (hcap : 2 ≤ cap) (hval : validate_history ms = true)
    (hlen : cap < ms.length) :
    (truncate_history cap ms).head? = ms.head? ∧
    (∃ k, k % 2 = 0 ∧
      truncate_history cap ms = ms.take 1 ++ ms.drop (1 + k) ∧
      ms.length - (truncate_history cap ms).length = k) ∧
    validate_history (truncate_history cap ms) = true := by
  have heq := truncate_history_eq_of_lt cap ms hlen
  have hk2 : ((ms.length - cap) + (ms.length - cap) % 2) % 2 = 0 := by omega
  have hkle : 1 + ((ms.length - cap) + (ms.length - cap) % 2) ≤ ms.length := by
    omega
  refine ⟨?_, ⟨(ms.length - cap) + (ms.length - cap) % 2, hk2, heq, ?_⟩, ?_⟩
  · rw [heq]
    cases ms with
    | nil => simp at hlen
    | cons m0 rest => rfl
  · rw [truncate_history_length cap ms hlen]
    omega
  · rw [heq]
    exact validate_take_drop ms _ hval hk2

theorem truncation_properties_witness :
    (truncate_history 2 [⟨Role.user, Content.str "a"⟩,
        ⟨Role.assistant, Content.str "b"⟩,
        ⟨Role.user, Content.str "c"⟩]).head? =
      ([⟨Role.user, Content.str "a"⟩, ⟨Role.assistant, Content.str "b"⟩,
        ⟨Role.user, Content.str "c"⟩] : List Message).head? ∧
    (∃ k, k % 2 = 0 ∧
      truncate_history 2 [⟨Role.user, Content.str "a"⟩,
          ⟨Role.assistant, Content.str "b"⟩, ⟨Role.user, Content.str "c"⟩] =
        ([⟨Role.user, Content.str "a"⟩, ⟨Role.assistant, Content.str "b"⟩,
          ⟨Role.user, Content.str "c"⟩] : List Message).take 1 ++
        ([⟨Role.user, Content.str "a"⟩, ⟨Role.assistant, Content.str "b"⟩,
          ⟨Role.user, Content.str "c"⟩] : List Message).drop (1 + k) ∧
      ([⟨Role.user, Content.str "a"⟩, ⟨Role.assistant, Content.str "b"⟩,
        ⟨Role.user, Content.str "c"⟩] : List Message).length -
        (truncate_history 2 [⟨Role.user, Content.str "a"⟩,
          ⟨Role.assistant, Content.str "b"⟩,
          ⟨Role.user, Content.str "c"⟩]).length = k) ∧
    validate_history (truncate_history 2 [⟨Role.user, Content.str "a"⟩,
      ⟨Role.assistant, Content.str "b"⟩,
      ⟨Role.user, Content.str "c"⟩]) = true :=
  truncation_properties 2
    [⟨Role.user, Content.str "a"⟩, ⟨Role.assistant, Content.str "b"⟩,
     ⟨Role.user, Content.str "c"⟩]
    (by decide) (by decide) (by decide)

/-! ### Conversation manager lemmas -/

theorem lookup_assoc_set_self {α : Type} (k : String) (v : α)
    (l : List (String × α)) : (assoc_set k v l).lookup k = some v := by
  simp [assoc_set, List.lookup]

theorem lookup_filter_none {α : Type} (k : String) (l : List (String × α))
    (p : String × α → Bool) (h : l.lookup k = none) :
    (l.filter p).lookup k = none := by
  induction l with
  | nil => rfl
  | cons e rest ih =>
    simp only [List.lookup] at h
    by_cases hk : (k == e.1) = true
    · rw [hk] at h
      simp at h
    · have hk' : (k == e.1) = false := by simpa using hk
      rw [hk'] at h
      simp only at h
      by_cases hp : p e = true
      · simp only [List.filter, hp, List.lookup, hk']
        exact ih h
      · have hp' : p e = false := by simpa using hp
        simp only [List.filter, hp']
        exact ih h

theorem prepared_messages_valid_odd (cfg : CMConfig) (st : CMState)
    (question : String) (conversation_id : Option String) (f : Bool) :
    validate_history (prepared_messages cfg st question conversation_id f)
      = true ∧
    (prepared_messages cfg st question conversation_id f).length % 2 = 1 := by
  unfold prepared_messages
  cases f with
  | false =>
    simp only [Bool.false_eq_true, if_false]
    rw [if_pos (validate_history_singleton_user _)]
    rw [truncate_history_singleton]
    exact ⟨validate_history_singleton_user _, rfl⟩
  | true =>
    simp only [if_true]
    by_cases hv : validate_history
      ((match conversation_id with
        | some cid => (st.histories.lookup cid).getD []
        | none => []) ++ [⟨Role.user, Content.str question⟩]) = true
    · rw [if_pos hv]
      exact ⟨truncate_history_valid _ _ hv,
        truncate_history_odd _ _ (validate_history_length_odd hv rfl)⟩
    · rw [if_neg hv]
      rw [truncate_history_singleton]
      exact ⟨validate_history_singleton_user _, rfl⟩

theorem manager_ask_run_sent (cfg : CMConfig) (st : CMState)
    (agent : List Message → AgentResult) (now : Nat) (question : String)
    (conversation_id : Option String) (is_followup : Bool)
    (cache_key : String) :
    (manager_ask_run cfg st agent now question conversation_id is_followup
        cache_key).sentToAgent =
      some (prepared_messages cfg st question conversation_id is_followup) := by
  cases h : agent (prepared_messages cfg st question conversation_id
      is_followup) with
  | ok answer final => simp [manager_ask_run, h]
  | err crashed => simp [manager_ask_run, h]

theorem manager_sent_valid (cfg : CMConfig) (st : CMState)
    (agent : List Message → AgentResult) (now : Nat) (question : String)
    (conversation_id : Option String) (m : List Message)
    (h : (manager_ask cfg st agent now question conversation_id).sentToAgent
      = some m) :
    validate_history m = true ∧ m.length % 2 = 1 := by
  simp only [manager_ask] at h
  cases hmatch : (if is_followup_check (cleanup_expired cfg st now)
      conversation_id then none
    else (cleanup_expired cfg st now).response_cache.lookup
      (cache_key_of question)) with
  | none =>
    rw [hmatch] at h
    simp only at h
    rw [manager_ask_run_sent] at h
    have hm : m = prepared_messages cfg (cleanup_expired cfg st now) question
        conversation_id (is_followup_check (cleanup_expired cfg st now)
          conversation_id) := by
      exact (Option.some.injEq _ _ ▸ h).symm
    rw [hm]
    exact prepared_messages_valid_odd _ _ _ _ _
  | some p =>
    obtain ⟨cached_answer, ts⟩ := p
    rw [hmatch] at h
    simp only at h
    by_cases ht : now - ts ≤ cfg.response_cache_ttl
    · rw [if_pos ht] at h
      simp at h
    · rw [if_neg ht] at h
      rw [manager_ask_run_sent] at h
      have hm : m = prepared_messages cfg (cleanup_expired cfg st now) question
          conversation_id (is_followup_check (cleanup_expired cfg st now)
            conversation_id) := by
        exact (Option.some.injEq _ _ ▸ h).symm
      rw [hm]
      exact prepared_messages_valid_odd _ _ _ _ _

theorem manager_ask_run_ok_lookup (cfg : CMConfig) (st : CMState)
    (agent : List Message → AgentResult) (now : Nat) (question : String)
    (cid : String) (f : Bool) (key : String) (ans : String)
    (final : List Message)
    (hag : agent (prepared_messages cfg st question (some cid) f)
      = .ok ans final) :
    ((manager_ask_run cfg st agent now question (some cid) f
        key).state.histories.lookup cid = some final) ∧
    (manager_ask_run cfg st agent now question (some cid) f key).result
      = .ok ans := by
  cases f with
  | false => simp [manager_ask_run, hag, lookup_assoc_set_self]
  | true => simp [manager_ask_run, hag, lookup_assoc_set_self]

theorem manager_ask_run_err_lookup (cfg : CMConfig) (st : CMState)
    (agent : List Message → AgentResult) (now : Nat) (question : String)
    (cid : String) (f : Bool) (key : String) (crashed : List Message)
    (hag : agent (prepared_messages cfg st question (some cid) f)
      = .err crashed) :
    ((manager_ask_run cfg st agent now question (some cid) f
        key).state.histories.lookup cid = some (repair_history crashed)) ∧
    (manager_ask_run cfg st agent now question (some cid) f key).result
      = .error () := by
  cases f with
  | false => simp [manager_ask_run, hag, lookup_assoc_set_self]
  | true => simp [manager_ask_run, hag, lookup_assoc_set_self]

def c1_cfg : CMConfig := ⟨3600, 20, 86400⟩

def c1_st : CMState := ⟨[], [], []⟩

def c1_oracle : Nat → ModelResponse := fun i =>
  if i = 0 then ⟨"tool_use", [ContentBlock.toolUse "id1" "t" []]⟩
  else ⟨"end_turn", [ContentBlock.text "ans"]⟩

def c1_mgr : MCPModel := ⟨[], none, fun _ _ _ => .ok []⟩

/-- C1, counterexample: a run that exhausts its one-iteration budget ends via
the forced-termination path; `ask` completes successfully, yet the stored
history contains two consecutive `user` messages (the final tool-results
message followed by the forcing instruction) and fails strict alternation. -/
theorem forced_termination_breaks_alternation :
    (agent_ask c1_oracle c1_mgr 1 [⟨Role.user, Content.str "q"⟩]).forced
      = true ∧
    (manager_ask c1_cfg c1_st (agent_of c1_oracle c1_mgr 1) 0 "q"
      (some "c")).result
      = .ok (agent_ask c1_oracle c1_mgr 1
          [⟨Role.user, Content.str "q"⟩]).answer ∧
    ∃ h, (manager_ask c1_cfg c1_st (agent_of c1_oracle c1_mgr 1) 0 "q"
        (some "c")).state.histories.lookup "c" = some h ∧
      validate_history h = false :=
  ⟨by decide, rfl, ⟨_, rfl, by decide⟩⟩

/-- C1, amended: when `ask` completes successfully through a run that ends by
natural completion (the forced-termination path not taken), the stored
history for the conversation still strictly alternates user/assistant
starting with user; a forced-termination run can instead leave consecutive
`user` messages behind. -/
theorem ask_preserves_alternation_when_not_forced (cfg : CMConfig)
    (st : CMState) (oracle : Nat → ModelResponse) (mgr : MCPModel)
    (N now : Nat) (question : String) (cid : String) (m hist : List Message)
    (hsent : (manager_ask cfg st (agent_of oracle mgr N) now question
      (some cid)).sentToAgent = some m)
    (hforced : (agent_ask oracle mgr N m).forced = false)
    (hlook : (manager_ask cfg st (agent_of oracle mgr N) now question
      (some cid)).state.histories.lookup cid = some hist) :
    validate_history hist = true := by
  simp only [manager_ask] at hsent hlook
  cases hmatch : (if is_followup_check (cleanup_expired cfg st now)
      (some cid) then none
    else (cleanup_expired cfg st now).response_cache.lookup
      (cache_key_of question)) with
  | none =>
    rw [hmatch] at hsent hlook
    simp only at hsent hlook
    rw [manager_ask_run_sent] at hsent
    have hm := Option.some.inj hsent
    have hrun := (manager_ask_run_ok_lookup cfg (cleanup_expired cfg st now)
      (agent_of oracle mgr N) now question cid
      (is_followup_check (cleanup_expired cfg st now) (some cid))
      (cache_key_of question) _ _ rfl).1
    rw [hrun] at hlook
    have hhist := Option.some.inj hlook
    rw [← hhist]
    have hprep := prepared_messages_valid_odd cfg (cleanup_expired cfg st now)
      question (some cid)
      (is_followup_check (cleanup_expired cfg st now) (some cid))
    rw [← hm] at hforced
    exact ask_go_valid oracle mgr N 0 _ hprep.1 hprep.2 hforced
  | some p =>
    obtain ⟨cached_answer, ts⟩ := p
    rw [hmatch] at hsent hlook
    simp only at hsent hlook
    by_cases ht : now - ts ≤ cfg.response_cache_ttl
    · rw [if_pos ht] at hsent hlook
      simp only at hsent hlook
      exact absurd hsent (by simp)
    · rw [if_neg ht] at hsent hlook
      rw [manager_ask_run_sent] at hsent
      have hm := Option.some.inj hsent
      have hrun := (manager_ask_run_ok_lookup cfg (cleanup_expired cfg st now)
        (agent_of oracle mgr N) now question cid
        (is_followup_check (cleanup_expired cfg st now) (some cid))
        (cache_key_of question) _ _ rfl).1
      rw [hrun] at hlook
      have hhist := Option.some.inj hlook
      rw [← hhist]
      have hprep := prepared_messages_valid_odd cfg
        (cleanup_expired cfg st now) question (some cid)
        (is_followup_check (cleanup_expired cfg st now) (some cid))
      rw [← hm] at hforced
      exact ask_go_valid oracle mgr N 0 _ hprep.1 hprep.2 hforced

def c1w_oracle : Nat → ModelResponse := fun _ =>
  ⟨"end_turn", [ContentBlock.text "a"]⟩

theorem ask_preserves_alternation_when_not_forced_witness :
    validate_history
      [⟨Role.user, Content.str "q"⟩,
       ⟨Role.assistant, Content.blocks [ContentBlock.text "a"]⟩] = true :=
  ask_preserves_alternation_when_not_forced c1_cfg c1_st c1w_oracle c1_mgr
    1 0 "q" "c" [⟨Role.user, Content.str "q"⟩]
    [⟨Role.user, Content.str "q"⟩,
     ⟨Role.assistant, Content.blocks [ContentBlock.text "a"]⟩]
    rfl rfl rfl

/-- Spec-side reading of the repaired tail shape claimed in the spec: the
last two messages of the history form an `assistant`/`user` pair. -/
def ends_with_assistant_user_pair (ms : List Message) : Bool :=
  match ms.dropLast.getLast?, ms.getLast? with
  | some a, some u => a.role == Role.assistant && u.role == Role.user
  | _, _ => false

theorem popTrailingUsers_go_length (fuel : Nat) :
    ∀ ms : List Message, 1 ≤ ms.length →
      1 ≤ (popTrailingUsers_go fuel ms).length := by
  induction fuel with
  | zero => intro ms h; simpa [popTrailingUsers_go] using h
  | succ fuel ih =>
    intro ms h
    rw [popTrailingUsers_go]
    by_cases hc : 1 < ms.length ∧
        (ms.getLast?.any fun m => m.role == Role.user) = true
    · rw [if_pos hc]
      exact ih ms.dropLast (by simp [List.length_dropLast]; omega)
    · rw [if_neg hc]
      exact h

theorem repair_history_ne_nil (ms : List Message) (h : ms ≠ []) :
    repair_history ms ≠ [] := by
  have hlen : 1 ≤ ms.length := by
    cases ms with
    | nil => exact absurd rfl h
    | cons a l => simp
  have h1 : 1 ≤ (popTrailingUsers ms).length :=
    popTrailingUsers_go_length ms.length ms hlen
  rw [repair_history]
  by_cases hc : 1 < (popTrailingUsers ms).length ∧
      ((popTrailingUsers ms).getLast?.any fun m =>
        m.role == Role.assistant && has_tool_use m) = true
  · rw [if_pos hc]
    have : 1 ≤ (popTrailingUsers ms).dropLast.length := by
      simp [List.length_dropLast]
      omega
    intro hnil
    rw [hnil] at this
    simp at this
  · rw [if_neg hc]
    intro hnil
    rw [hnil] at h1
    simp at h1

def c2_cfg : CMConfig := ⟨3600, 20, 86400⟩

def c2_st : CMState := ⟨[], [], []⟩

def c2_agent : List Message → AgentResult := fun ms => .err ms

/-- C2, counterexample: an agent crash on the very first model call of a new
conversation leaves the stored history as the single `user` question after
repair — a history that is neither empty nor ends on a completed
`assistant`/`user` pair. -/
theorem crash_repair_lone_user_counterexample :
    (manager_ask c2_cfg c2_st c2_agent 0 "q" (some "c")).result
      = .error () ∧
    (manager_ask c2_cfg c2_st c2_agent 0 "q" (some "c")).state.histories.lookup
      "c" = some [⟨Role.user, Content.str "q"⟩] ∧
    ends_with_assistant_user_pair [⟨Role.user, Content.str "q"⟩] = false ∧
    ([⟨Role.user, Content.str "q"⟩] : List Message) ≠ [] :=
  ⟨rfl, by decide, by decide, by decide⟩

/-- C2, amended: on an agent crash the manager stores
`repair_history` of the crashed message list (trailing `user` messages are
popped while more than one message remains, then a trailing tool-use
`assistant` message is popped) and re-raises; the repaired history is never
empty, and it may be a lone `user` message rather than ending on a completed
`assistant`/`user` pair. A subsequent `ask` never rejects due to malformed
alternation: the history it hands to the agent loop always strictly
alternates (an invalid stored history is reset to just the new question). -/
theorem crash_repair_behaviour :
    (∀ (cfg : CMConfig) (st : CMState) (agent : List Message → AgentResult)
      (now : Nat) (question : String) (conversation_id : Option String)
      (m : List Message),
      (manager_ask cfg st agent now question conversation_id).sentToAgent
        = some m →
      validate_history m = true) ∧
    (∀ (cfg : CMConfig) (st : CMState) (agent : List Message → AgentResult)
      (now : Nat) (question : String) (cid : String)
      (m crashed : List Message),
      (manager_ask cfg st agent now question (some cid)).sentToAgent
        = some m →
      agent m = .err crashed →
      (manager_ask cfg st agent now question (some cid)).result
        = .error () ∧
      (manager_ask cfg st agent now question
          (some cid)).state.histories.lookup cid
        = some (repair_history crashed)) ∧
    (∀ ms : List Message, ms ≠ [] → repair_history ms ≠ []) := by
  refine ⟨?_, ?_, repair_history_ne_nil⟩
  · intro cfg st agent now question conversation_id m h
    exact (manager_sent_valid cfg st agent now question conversation_id m h).1
  · intro cfg st agent now question cid m crashed hsent hag
    simp only [manager_ask] at hsent ⊢
    cases hmatch : (if is_followup_check (cleanup_expired cfg st now)
        (some cid) then none
      else (cleanup_expired cfg st now).response_cache.lookup
        (cache_key_of question)) with
    | none =>
      rw [hmatch] at hsent
      simp only at hsent
      rw [manager_ask_run_sent] at hsent
      have hm := Option.some.inj hsent
      rw [← hm] at hag
      have hrun := manager_ask_run_err_lookup cfg (cleanup_expired cfg st now)
        agent now question cid
        (is_followup_check (cleanup_expired cfg st now) (some cid))
        (cache_key_of question) crashed hag
      exact ⟨hrun.2, hrun.1⟩
    | some p =>
      obtain ⟨cached_answer, ts⟩ := p
      rw [hmatch] at hsent
      simp only at hsent
      by_cases ht : now - ts ≤ cfg.response_cache_ttl
      · rw [if_pos ht] at hsent
        simp only at hsent
        exact absurd hsent (by simp)
      · rw [if_neg ht] at hsent
        simp only
        rw [if_neg ht]
        rw [manager_ask_run_sent] at hsent
        have hm := Option.some.inj hsent
        rw [← hm] at hag
        have hrun := manager_ask_run_err_lookup cfg
          (cleanup_expired cfg st now) agent now question cid
          (is_followup_check (cleanup_expired cfg st now) (some cid))
          (cache_key_of question) crashed hag
        exact ⟨hrun.2, hrun.1⟩

theorem crash_repair_behaviour_witness :
    (manager_ask c2_cfg c2_st c2_agent 0 "q2" (some "c2")).result
      = .error () ∧
    (manager_ask c2_cfg c2_st c2_agent 0 "q2" (some "c2")).state.histories.lookup
      "c2" = some (repair_history [⟨Role.user, Content.str "q2"⟩]) :=
  crash_repair_behaviour.2.1 c2_cfg c2_st c2_agent 0 "q2" "c2"
    [⟨Role.user, Content.str "q2"⟩] [⟨Role.user, Content.str "q2"⟩] rfl rfl

theorem prepared_messages_fresh (cfg : CMConfig) (st : CMState) (q : String)
    (cid : Option String) :
    prepared_messages cfg st q cid false = [⟨Role.user, Content.str q⟩] := by
  simp [prepared_messages, ite_self, truncate_history_singleton]

theorem manager_ask_no_cid_to_run (cfg : CMConfig) (st : CMState)
    (agent : List Message → AgentResult) (now : Nat) (q : String)
    (hnone : (cleanup_expired cfg st now).response_cache.lookup
      (cache_key_of q) = none) :
    manager_ask cfg st agent now q none =
      manager_ask_run cfg (cleanup_expired cfg st now) agent now q none
        false (cache_key_of q) := by
  simp [manager_ask, is_followup_check, hnone]

theorem manager_ask_run_no_cid_ok (cfg : CMConfig) (st : CMState)
    (agent : List Message → AgentResult) (now : Nat) (q : String)
    (ans : String) (final : List Message)
    (hag : agent [⟨Role.user, Content.str q⟩] = .ok ans final) :
    manager_ask_run cfg st agent now q none false (cache_key_of q) =
      { result := .ok ans,
        state := { st with
          response_cache := assoc_set (cache_key_of q) (ans, now)
            st.response_cache },
        ranAgent := true,
        sentToAgent := some [⟨Role.user, Content.str q⟩] } := by
  simp [manager_ask_run, prepared_messages_fresh, hag]

theorem manager_ask_cache_hit (cfg : CMConfig) (st : CMState)
    (agent : List Message → AgentResult) (now : Nat) (q : String)
    (ans : String) (ts : Nat)
    (hsome : (cleanup_expired cfg st now).response_cache.lookup
      (cache_key_of q) = some (ans, ts))
    (httl : now - ts ≤ cfg.response_cache_ttl) :
    manager_ask cfg st agent now q none =
      { result := .ok ans, state := cleanup_expired cfg st now,
        ranAgent := false, sentToAgent := none } := by
  simp [manager_ask, is_followup_check, hsome, httl]

/-- C5: a stateless question asked twice within the cache TTL, the second
time equal to the first up to leading/trailing whitespace and case
(`strip().lower()`), triggers exactly one agent-loop execution; the second
call returns the cached answer unchanged. -/
theorem stateless_cache_single_run (cfg : CMConfig) (st0 : CMState)
    (agent agent2 : List Message → AgentResult) (q1 q2 ans : String)
    (final : List Message) (now1 now2 : Nat)
    (hfresh : st0.response_cache.lookup (cache_key_of q1) = none)
    (hkey : cache_key_of q2 = cache_key_of q1)
    (hagent : agent [⟨Role.user, Content.str q1⟩] = .ok ans final)
    (httl : now2 - now1 ≤ cfg.response_cache_ttl) :
    (manager_ask cfg st0 agent now1 q1 none).result = .ok ans ∧
    (manager_ask cfg st0 agent now1 q1 none).ranAgent = true ∧
    (manager_ask cfg (manager_ask cfg st0 agent now1 q1 none).state agent2
      now2 q2 none).result = .ok ans ∧
    (manager_ask cfg (manager_ask cfg st0 agent now1 q1 none).state agent2
      now2 q2 none).ranAgent = false := by
  have h1none : (cleanup_expired cfg st0 now1).response_cache.lookup
      (cache_key_of q1) = none :=
    lookup_filter_none _ _ _ hfresh
  have ho1 : manager_ask cfg st0 agent now1 q1 none =
      { result := .ok ans,
        state := { (cleanup_expired cfg st0 now1) with
          response_cache := assoc_set (cache_key_of q1) (ans, now1)
            (cleanup_expired cfg st0 now1).response_cache },
        ranAgent := true,
        sentToAgent := some [⟨Role.user, Content.str q1⟩] } := by
    rw [manager_ask_no_cid_to_run cfg st0 agent now1 q1 h1none]
    exact manager_ask_run_no_cid_ok cfg (cleanup_expired cfg st0 now1) agent
      now1 q1 ans final hagent
  have hcache2 : (cleanup_expired cfg
      { (cleanup_expired cfg st0 now1) with
        response_cache := assoc_set (cache_key_of q1) (ans, now1)
          (cleanup_expired cfg st0 now1).response_cache }
      now2).response_cache.lookup (cache_key_of q2) = some (ans, now1) := by
    rw [hkey]
    have hkeep : ¬ cfg.response_cache_ttl < now2 - now1 := by omega
    simp [cleanup_expired, assoc_set, List.filter_cons, hkeep, List.lookup]
    rw [if_pos (show now2 ≤ cfg.response_cache_ttl + now1 by omega)]
    simp [List.lookup]
  have ho2 : manager_ask cfg
      { (cleanup_expired cfg st0 now1) with
        response_cache := assoc_set (cache_key_of q1) (ans, now1)
          (cleanup_expired cfg st0 now1).response_cache }
      agent2 now2 q2 none =
      { result := .ok ans,
        state := cleanup_expired cfg
          { (cleanup_expired cfg st0 now1) with
            response_cache := assoc_set (cache_key_of q1) (ans, now1)
              (cleanup_expired cfg st0 now1).response_cache } now2,
        ranAgent := false, sentToAgent := none } :=
    manager_ask_cache_hit cfg _ agent2 now2 q2 ans now1 hcache2 httl
  refine ⟨?_, ?_, ?_, ?_⟩
  · rw [ho1]
  · rw [ho1]
  · rw [ho1]
    simp only
    rw [ho2]
  · rw [ho1]
    simp only
    rw [ho2]

def c5_cfg : CMConfig := ⟨3600, 20, 86400⟩

def c5_st : CMState := ⟨[], [], []⟩

def c5_agent : List Message → AgentResult := fun _ => .ok "ans" []

def c5_agent2 : List Message → AgentResult := fun _ => .err []

theorem stateless_cache_single_run_witness :
    (manager_ask c5_cfg c5_st c5_agent 0 "Q" none).result = .ok "ans" ∧
    (manager_ask c5_cfg c5_st c5_agent 0 "Q" none).ranAgent = true ∧
    (manager_ask c5_cfg (manager_ask c5_cfg c5_st c5_agent 0 "Q" none).state
      c5_agent2 1 "Q" none).result = .ok "ans" ∧
    (manager_ask c5_cfg (manager_ask c5_cfg c5_st c5_agent 0 "Q" none).state
      c5_agent2 1 "Q" none).ranAgent = false :=
  stateless_cache_single_run c5_cfg c5_st c5_agent c5_agent2 "Q" "Q" "ans"
    [] 0 1 rfl rfl rfl (by decide)

def c6_cfg : CMConfig := ⟨3600, 20, 86400⟩

def c6_st : CMState := ⟨[], [], []⟩

def c6_agent : List Message → AgentResult := fun ms => .ok "ans" ms

/-- C6, counterexample: a successful `ask` that DID carry a conversation id
(a fresh, unseen one) still populates the response cache, because the code
keys cache population on `not is_followup` rather than on the absence of a
conversation id. -/
theorem cache_populated_despite_conversation_id :
    (manager_ask c6_cfg c6_st c6_agent 0 "q" (some "c1")).result
      = .ok "ans" ∧
    (manager_ask c6_cfg c6_st c6_agent 0 "q"
        (some "c1")).state.response_cache
      = [(cache_key_of "q", "ans", 0)] :=
  ⟨rfl, rfl⟩

theorem manager_ask_run_ok_cache (cfg : CMConfig) (st : CMState)
    (agent : List Message → AgentResult) (now : Nat) (q : String)
    (cid : Option String) (f : Bool) (key : String) (ans : String)
    (final : List Message)
    (hag : agent (prepared_messages cfg st q cid f) = .ok ans final) :
    (manager_ask_run cfg st agent now q cid f key).result = .ok ans ∧
    (manager_ask_run cfg st agent now q cid f key).state.response_cache =
      (if f then st.response_cache
       else assoc_set key (ans, now) st.response_cache) := by
  cases cid with
  | none => cases f <;> simp [manager_ask_run, hag]
  | some c => cases f <;> simp [manager_ask_run, hag]

theorem manager_ask_run_err_cache (cfg : CMConfig) (st : CMState)
    (agent : List Message → AgentResult) (now : Nat) (q : String)
    (cid : Option String) (f : Bool) (key : String) (crashed : List Message)
    (hag : agent (prepared_messages cfg st q cid f) = .err crashed) :
    (manager_ask_run cfg st agent now q cid f key).result = .error () ∧
    (manager_ask_run cfg st agent now q cid f key).state.response_cache =
      st.response_cache := by
  cases cid with
  | none => simp [manager_ask_run, hag]
  | some c => simp [manager_ask_run, hag]

/-- C6, amended: a successful `ask` that actually ran the agent populates the
response cache exactly when the question was NOT a follow-up — that is, when
no conversation id was given or the given id was not a live conversation (an
unseen id still populates the cache); a failed run never populates it; cache
entries expire against `response_cache_ttl` while conversations expire
against `conversation_ttl`, independently. -/
theorem cache_population_characterisation :
    (∀ (cfg : CMConfig) (st : CMState) (agent : List Message → AgentResult)
      (now : Nat) (q : String) (cid : Option String) (ans : String),
      (manager_ask cfg st agent now q cid).ranAgent = true →
      (manager_ask cfg st agent now q cid).result = .ok ans →
      (manager_ask cfg st agent now q cid).state.response_cache =
        (if is_followup_check (cleanup_expired cfg st now) cid then
          (cleanup_expired cfg st now).response_cache
        else
          assoc_set (cache_key_of q) (ans, now)
            (cleanup_expired cfg st now).response_cache)) ∧
    (∀ (cfg : CMConfig) (st : CMState) (agent : List Message → AgentResult)
      (now : Nat) (q : String) (cid : Option String),
      (manager_ask cfg st agent now q cid).result = .error () →
      (manager_ask cfg st agent now q cid).state.response_cache =
        (cleanup_expired cfg st now).response_cache) ∧
    (∀ (cfg : CMConfig) (st : CMState) (now : Nat)
      (e : String × String × Nat),
      e ∈ (cleanup_expired cfg st now).response_cache ↔
        (e ∈ st.response_cache ∧
          now - e.2.2 ≤ cfg.response_cache_ttl)) ∧
    (∀ (cfg : CMConfig) (st : CMState) (now : Nat) (p : String × Nat),
      p ∈ (cleanup_expired cfg st now).last_access ↔
        (p ∈ st.last_access ∧ now - p.2 ≤ cfg.conversation_ttl)) := by
  refine ⟨?_, ?_, ?_, ?_⟩
  · intro cfg st agent now q cid ans hran hok
    simp only [manager_ask] at hran hok ⊢
    cases hmatch : (if is_followup_check (cleanup_expired cfg st now) cid
        then none
      else (cleanup_expired cfg st now).response_cache.lookup
        (cache_key_of q)) with
    | none =>
      rw [hmatch] at hran hok
      simp only at hran hok
      cases hag : agent (prepared_messages cfg (cleanup_expired cfg st now)
          q cid (is_followup_check (cleanup_expired cfg st now) cid)) with
      | ok a fl =>
        have hrun := manager_ask_run_ok_cache cfg (cleanup_expired cfg st now)
          agent now q cid (is_followup_check (cleanup_expired cfg st now) cid)
          (cache_key_of q) a fl hag
        rw [hrun.1] at hok
        have ha : a = ans := by
          cases hok
          rfl
        rw [hrun.2, ha]
      | err cr =>
        have hrun := manager_ask_run_err_cache cfg
          (cleanup_expired cfg st now) agent now q cid
          (is_followup_check (cleanup_expired cfg st now) cid)
          (cache_key_of q) cr hag
        rw [hrun.1] at hok
        exact absurd hok (by simp)
    | some p =>
      obtain ⟨ca, ts⟩ := p
      rw [hmatch] at hran hok
      simp only at hran hok
      by_cases ht : now - ts ≤ cfg.response_cache_ttl
      · rw [if_pos ht] at hran
        simp at hran
      · rw [if_neg ht] at hran hok
        simp only
        rw [if_neg ht]
        cases hag : agent (prepared_messages cfg (cleanup_expired cfg st now)
            q cid (is_followup_check (cleanup_expired cfg st now) cid)) with
        | ok a fl =>
          have hrun := manager_ask_run_ok_cache cfg
            (cleanup_expired cfg st now) agent now q cid
            (is_followup_check (cleanup_expired cfg st now) cid)
            (cache_key_of q) a fl hag
          rw [hrun.1] at hok
          have ha : a = ans := by
            cases hok
            rfl
          rw [hrun.2, ha]
        | err cr =>
          have hrun := manager_ask_run_err_cache cfg
            (cleanup_expired cfg st now) agent now q cid
            (is_followup_check (cleanup_expired cfg st now) cid)
            (cache_key_of q) cr hag
          rw [hrun.1] at hok
          exact absurd hok (by simp)
  · intro cfg st agent now q cid herr
    simp only [manager_ask] at herr ⊢
    cases hmatch : (if is_followup_check (cleanup_expired cfg st now) cid
        then none
      else (cleanup_expired cfg st now).response_cache.lookup
        (cache_key_of q)) with
    | none =>
      rw [hmatch] at herr
      simp only at herr
      cases hag : agent (prepared_messages cfg (cleanup_expired cfg st now)
          q cid (is_followup_check (cleanup_expired cfg st now) cid)) with
      | ok a fl =>
        have hrun := manager_ask_run_ok_cache cfg (cleanup_expired cfg st now)
          agent now q cid (is_followup_check (cleanup_expired cfg st now) cid)
          (cache_key_of q) a fl hag
        rw [hrun.1] at herr
        exact absurd herr (by simp)
      | err cr =>
        exact (manager_ask_run_err_cache cfg (cleanup_expired cfg st now)
          agent now q cid (is_followup_check (cleanup_expired cfg st now) cid)
          (cache_key_of q) cr hag).2
    | some p =>
      obtain ⟨ca, ts⟩ := p
      rw [hmatch] at herr
      simp only at herr
      by_cases ht : now - ts ≤ cfg.response_cache_ttl
      · rw [if_pos ht] at herr
        simp at herr
      · rw [if_neg ht] at herr
        simp only
        rw [if_neg ht]
        cases hag : agent (prepared_messages cfg (cleanup_expired cfg st now)
            q cid (is_followup_check (cleanup_expired cfg st now) cid)) with
        | ok a fl =>
          have hrun := manager_ask_run_ok_cache cfg
            (cleanup_expired cfg st now) agent now q cid
            (is_followup_check (cleanup_expired cfg st now) cid)
            (cache_key_of q) a fl hag
          rw [hrun.1] at herr
          exact absurd herr (by simp)
        | err cr =>
          exact (manager_ask_run_err_cache cfg (cleanup_expired cfg st now)
            agent now q cid
            (is_followup_check (cleanup_expired cfg st now) cid)
            (cache_key_of q) cr hag).2
  · intro cfg st now e
    simp [cleanup_expired, List.mem_filter, Nat.not_lt]
  · intro cfg st now p
    simp [cleanup_expired, List.mem_filter, Nat.not_lt]

theorem cache_population_characterisation_witness :
    (manager_ask c6_cfg c6_st c6_agent 5 "w" (some "cW")).state.response_cache
      = (if is_followup_check (cleanup_expired c6_cfg c6_st 5) (some "cW")
        then (cleanup_expired c6_cfg c6_st 5).response_cache
        else assoc_set (cache_key_of "w") ("ans", 5)
          (cleanup_expired c6_cfg c6_st 5).response_cache) :=
  cache_population_characterisation.1 c6_cfg c6_st c6_agent 5 "w"
    (some "cW") "ans" rfl rfl
